import Mathlib

/-!
Verification development for the `fast_mmaped_file_rs` metrics store
(`vinted/vinted-prometheus-client-mmap`).

We shallowly embed the core Rust modules:

* `src/raw_entry.rs` — the binary record codec (`RawEntry`);
* `src/file_entry.rs` — entry metadata, the merge policy and the text
  exposition (`EntryMetadata`, `BorrowedData`, `FileEntry`);
* `src/map.rs` — the aggregation map (`EntryMap::process_buffer`,
  `merge_or_store`);
* `src/mmap/inner.rs` — bounds-checked value loads and stores
  (`InnerMmap::load_value` / `save_value`);
* `src/mmap.rs` — region growth (`MmapedFile::expand_to_fit`).

Byte buffers are modelled as `List Nat` (each element a byte value); machine
integers are `Nat` with explicit bounds (`usize` is 64 bits, so checked
arithmetic fails above `2 ^ 64 - 1`).  All multi-byte integers in the file
format are stored in the host's native byte order; we model that order as
little-endian throughout, and no claim depends on the choice.

An `f64` value is modelled at two levels of abstraction, matching how the
source uses it:

* in the codec (`RawEntry::save` writes `value.to_ne_bytes()`), an `f64`
  appears only through its 8-byte representation, a bijection to 64-bit
  patterns; we model the value as its bit pattern, a `Nat < 2 ^ 64`;
* in `EntryMetadata`, values are combined arithmetically (`min`, `max`,
  `+`); we model them as `ℚ`, which captures which operation the merge
  policy selects (IEEE-754 rounding and NaN behaviour are outside the
  model).  The interpretation of the stored 8-byte pattern as a number is
  the standard library's `f64::from_ne_bytes`; we abstract it as a
  parameter `f64FromBits : Nat → ℚ` where the two levels meet.
-/

/-- `usize::MAX` on the 64-bit build target. -/
def USIZE_MAX : Nat := 2 ^ 64 - 1

/-- `i32::MAX`. -/
def I32_MAX : Nat := 2 ^ 31 - 1

/-- `HEADER_SIZE = 2 * size_of::<u32>()` from `src/lib.rs`. -/
def HEADER_SIZE : Nat := 8

/-- The interned symbol `:gauge` (`src/lib.rs`), modelled as its string. -/
def SYM_GAUGE : String := "gauge"

/-- The interned symbol `:min` (`src/lib.rs`). -/
def SYM_MIN : String := "min"

/-- The interned symbol `:max` (`src/lib.rs`). -/
def SYM_MAX : String := "max"

/-- The interned symbol `:livesum` (`src/lib.rs`). -/
def SYM_LIVESUM : String := "livesum"

/-- The Ruby exception classes named by `RubyError` in `src/error.rs`. -/
inductive RubyError where
  | arg
  | encoding
  | frozen
  | indexErr
  | ioError
  | noMem
  | promParsing
  | runtime
  | typeError
  deriving DecidableEq, Repr

/-- The crate-internal error type `MmapError` of `src/error.rs`.  Variants
that carry only diagnostic strings in Rust carry the same data here;
`OutOfBounds` and `Overflow` keep their numbers as `Nat` instead of the
stringified form. -/
inductive MmapError where
  | legacy (msg : String) (e : RubyError)
  | encoding (msg : String)
  | keyLength
  | outOfMemory (n : Nat)
  | outOfBounds (index len : Nat)
  | overflow (value added : Nat) (op : String)
  | other (msg : String)
  | promParsing (msg : String)
  deriving DecidableEq, Repr

/-- `usize::add_chk` from `src/util.rs`: checked addition, `Overflow` error
past `usize::MAX`. -/
def add_chk (a b : Nat) : Except MmapError Nat :=
  if a + b ≤ USIZE_MAX then .ok (a + b) else .error (.overflow a b "adding")

/-- `usize::mul_chk` from `src/util.rs`: checked multiplication. -/
def mul_chk (a b : Nat) : Except MmapError Nat :=
  if a * b ≤ USIZE_MAX then .ok (a * b) else .error (.overflow a b "multiplying")

/-- Encode `n` into `w` bytes, native byte order (modelled little-endian);
the counterpart of `u32::to_ne_bytes` / `f64::to_ne_bytes`. -/
def toLe : Nat → Nat → List Nat
  | 0, _ => []
  | w + 1, n => n % 256 :: toLe w (n / 256)

/-- Decode a native-order byte list into the integer it represents; the
counterpart of `u32::from_ne_bytes` / reading an `f64` bit pattern. -/
def fromLe : List Nat → Nat
  | [] => 0
  | b :: rest => b + 256 * fromLe rest

/-- `util::read_u32`: read a `u32` from `buf` at `offset`, out-of-bounds
error (carrying `offset` and the buffer length) when fewer than 4 bytes are
available. -/
def read_u32 (buf : List Nat) (offset : Nat) : Except MmapError Nat :=
  if offset + 4 ≤ buf.length then .ok (fromLe ((buf.drop offset).take 4))
  else .error (.outOfBounds offset buf.length)

/-- `util::read_f64`: read the 8-byte value at `offset` (returned as its
64-bit pattern), out-of-bounds error (carrying `offset + 8` and the buffer
length) when fewer than 8 bytes are available. -/
def read_f64_bits (buf : List Nat) (offset : Nat) : Except MmapError Nat :=
  if offset + 8 ≤ buf.length then .ok (fromLe ((buf.drop offset).take 8))
  else .error (.outOfBounds (offset + 8) buf.length)

/-- `RawEntry::padding_len`: bytes of padding after the key to reach 8-byte
alignment. -/
def RawEntry.padding_len (encoded_len : Nat) : Nat :=
  8 - (4 + encoded_len) % 8

/-- `RawEntry::check_encoded_len`: keys longer than `i32::MAX` are a
`KeyLength` error. -/
def RawEntry.check_encoded_len (encoded_len : Nat) : Except MmapError Unit :=
  if encoded_len > I32_MAX then .error .keyLength else .ok ()

/-- `RawEntry::calc_value_offset`: `size_of::<u32>() + encoded_len +
padding_len encoded_len`, after validating the key length. -/
def RawEntry.calc_value_offset (encoded_len : Nat) : Except MmapError Nat :=
  match RawEntry.check_encoded_len encoded_len with
  | .error e => .error e
  | .ok _ => .ok (4 + encoded_len + RawEntry.padding_len encoded_len)

/-- `RawEntry::calc_total_len`: the value offset plus `size_of::<f64>()`,
with checked addition. -/
def RawEntry.calc_total_len (encoded_len : Nat) : Except MmapError Nat :=
  match RawEntry.calc_value_offset encoded_len with
  | .error e => .error e
  | .ok v => add_chk v 8

deriving instance DecidableEq for Except

/-- The `RawEntry` struct: the entry bytes with the leading length `u32`
stripped, and the stored key length. -/
structure RawEntry where
  bytes : List Nat
  encoded_len : Nat
  deriving DecidableEq, Repr

/-- `RawEntry::save`: write the key length, key, space padding and value
into the front of `bytes`, returning the updated buffer together with the
`Result` the Rust function returns (the value offset on success).  The Rust
function takes `&mut [u8]`; returning the buffer models that in-place
mutation, and on the error paths the buffer is returned untouched exactly
as the Rust slice is left untouched. -/
def RawEntry.save (bytes : List Nat) (key : List Nat) (value : Nat) :
    List Nat × Except MmapError Nat :=
  match RawEntry.calc_total_len key.length with
  | .error e => (bytes, .error e)
  | .ok total_len =>
    if total_len > bytes.length then
      (bytes, .error (.other ("entry length " ++ toString total_len ++
        " larger than slice length " ++ toString bytes.length)))
    else
      (toLe 4 key.length ++ key ++
         List.replicate (RawEntry.padding_len key.length) 32 ++
         toLe 8 value ++ bytes.drop total_len,
       RawEntry.calc_value_offset key.length)

/-- `RawEntry::from_slice`: parse an entry from the front of a byte slice:
read the `u32` key length, validate the total length against the slice,
and keep `bytes[4..total_len]`. -/
def RawEntry.from_slice (bytes : List Nat) : Except MmapError RawEntry :=
  match read_u32 bytes 0 with
  | .error e => .error e
  | .ok encoded_len =>
    match RawEntry.calc_total_len encoded_len with
    | .error e => .error e
    | .ok total_len =>
      if total_len > bytes.length then
        .error (.outOfBounds total_len bytes.length)
      else
        .ok ⟨(bytes.take total_len).drop 4, encoded_len⟩

/-- `RawEntry::value`: the stored 8-byte value (as its 64-bit pattern),
read at `encoded_len + padding_len encoded_len` into the entry's bytes.
The Rust method unwraps a bounds-checked read that is in range for every
entry built by `from_slice`; the model reads the bytes directly. -/
def RawEntry.value (e : RawEntry) : Nat :=
  fromLe ((e.bytes.drop (e.encoded_len + RawEntry.padding_len e.encoded_len)).take 8)

/-- `RawEntry::json`: the key bytes, padding excluded. -/
def RawEntry.json (e : RawEntry) : List Nat :=
  e.bytes.take e.encoded_len

/-- `RawEntry::total_len`: total entry length including the length `u32`,
key, padding and value.  The Rust method unwraps `calc_total_len`, which
succeeds for every entry built by `from_slice`; the model returns the
arithmetic value directly. -/
def RawEntry.total_len (e : RawEntry) : Nat :=
  4 + e.encoded_len + RawEntry.padding_len e.encoded_len + 8

theorem toLe_length (w n : Nat) : (toLe w n).length = w := by
  induction w generalizing n with
  | zero => rfl
  | succ w ih => simp [toLe, ih]

theorem fromLe_toLe (w n : Nat) : fromLe (toLe w n) = n % 256 ^ w := by
  induction w generalizing n with
  | zero => simp [toLe, fromLe, Nat.mod_one]
  | succ w ih =>
    rw [toLe, fromLe, ih, pow_succ, mul_comm (256 ^ w) 256, Nat.mod_mul]

theorem RawEntry.padding_len_pos (e : Nat) : 0 < RawEntry.padding_len e := by
  have : (4 + e) % 8 < 8 := Nat.mod_lt _ (by omega)
  unfold RawEntry.padding_len
  omega

theorem RawEntry.padding_len_le (e : Nat) : RawEntry.padding_len e ≤ 8 := by
  unfold RawEntry.padding_len
  omega

theorem RawEntry.calc_total_len_ok {e t : Nat}
    (h : RawEntry.calc_total_len e = .ok t) :
    e ≤ I32_MAX ∧ t = 4 + e + RawEntry.padding_len e + 8 := by
  unfold RawEntry.calc_total_len RawEntry.calc_value_offset
      RawEntry.check_encoded_len at h
  by_cases he : e > I32_MAX
  · simp [he] at h
  · simp [he, add_chk] at h
    split at h
    · exact ⟨by omega, by injection h with h; omega⟩
    · cases h

theorem RawEntry.calc_total_len_of_le {e : Nat} (h : e ≤ I32_MAX) :
    RawEntry.calc_total_len e = .ok (4 + e + RawEntry.padding_len e + 8) := by
  have hpad := RawEntry.padding_len_le e
  unfold RawEntry.calc_total_len RawEntry.calc_value_offset
      RawEntry.check_encoded_len
  have he : ¬ e > I32_MAX := by omega
  have hle : 4 + e + RawEntry.padding_len e + 8 ≤ USIZE_MAX := by
    unfold USIZE_MAX
    unfold I32_MAX at h
    omega
  simp [he, add_chk, hle]

theorem RawEntry.from_slice_encoding (key P V R : List Nat)
    (hk : key.length ≤ I32_MAX)
    (hP : P.length = RawEntry.padding_len key.length)
    (hV : V.length = 8) :
    RawEntry.from_slice (toLe 4 key.length ++ key ++ P ++ V ++ R) =
      .ok ⟨key ++ P ++ V, key.length⟩ := by
  have hA : (toLe 4 key.length).length = 4 := toLe_length 4 key.length
  have hk4 : key.length < 256 ^ 4 := by norm_num [I32_MAX] at hk ⊢; omega
  have hpad := RawEntry.padding_len_le key.length
  have hW : (key ++ P ++ V).length =
      key.length + RawEntry.padding_len key.length + 8 := by
    simp [hP, hV]; omega
  have hsplit : toLe 4 key.length ++ key ++ P ++ V ++ R =
      (toLe 4 key.length ++ (key ++ P ++ V)) ++ R := by
    simp [List.append_assoc]
  have hlenall : (toLe 4 key.length ++ key ++ P ++ V ++ R).length =
      4 + (key.length + RawEntry.padding_len key.length + 8) + R.length := by
    simp [hA, hP, hV]; omega
  have hread : read_u32 (toLe 4 key.length ++ key ++ P ++ V ++ R) 0 =
      .ok key.length := by
    unfold read_u32
    rw [if_pos (by omega)]
    rw [List.drop_zero, hsplit, List.append_assoc,
      List.take_left' hA, fromLe_toLe, Nat.mod_eq_of_lt hk4]
  have htake : ((toLe 4 key.length ++ key ++ P ++ V ++ R).take
      (4 + key.length + RawEntry.padding_len key.length + 8)).drop 4 =
      key ++ P ++ V := by
    rw [hsplit, List.take_left' (by simp [hA, hW]; omega), List.drop_left' hA]
  unfold RawEntry.from_slice
  rw [hread]
  dsimp only
  rw [RawEntry.calc_total_len_of_le hk]
  dsimp only
  rw [if_neg (by omega)]
  rw [htake]

theorem RawEntry.json_encoding (key P V : List Nat) :
    RawEntry.json ⟨key ++ P ++ V, key.length⟩ = key := by
  unfold RawEntry.json
  rw [List.append_assoc, List.take_left' rfl]

theorem RawEntry.value_encoding (key P V : List Nat)
    (hP : P.length = RawEntry.padding_len key.length)
    (hV : V.length = 8) :
    RawEntry.value ⟨key ++ P ++ V, key.length⟩ = fromLe V := by
  unfold RawEntry.value
  rw [List.drop_left' (by simp [hP]), List.take_of_length_le (by omega)]

/-- C1 — Record codec round-trip: a successful
`save(buffer, key_bytes, value)` produces a buffer from which `from_slice`
decodes an entry whose key slice (`json`, padding excluded) is exactly
`key_bytes` and whose stored value is exactly `value` (values are 64-bit
`f64` patterns, hence the `value < 2 ^ 64` hypothesis). -/
theorem raw_entry_roundtrip (buffer key : List Nat) (value : Nat)
    (buf' : List Nat) (off : Nat)
    (hval : value < 2 ^ 64)
    (hsave : RawEntry.save buffer key value = (buf', .ok off)) :
    ∃ e : RawEntry, RawEntry.from_slice buf' = .ok e ∧
      e.json = key ∧ e.value = value := by
  unfold RawEntry.save at hsave
  rcases ht : RawEntry.calc_total_len key.length with er | t
  · rw [ht] at hsave; simp at hsave
  rw [ht] at hsave
  dsimp only at hsave
  obtain ⟨hk, htt⟩ := RawEntry.calc_total_len_ok ht
  by_cases hlen : t > buffer.length
  · rw [if_pos hlen] at hsave; simp at hsave
  rw [if_neg hlen] at hsave
  have hbuf := congrArg Prod.fst hsave
  simp only at hbuf
  subst hbuf
  refine ⟨⟨key ++ List.replicate (RawEntry.padding_len key.length) 32 ++
    toLe 8 value, key.length⟩, ?_, ?_, ?_⟩
  · have := RawEntry.from_slice_encoding key
      (List.replicate (RawEntry.padding_len key.length) 32) (toLe 8 value)
      (buffer.drop t) hk (by simp) (toLe_length 8 value)
    exact this
  · exact RawEntry.json_encoding _ _ _
  · rw [RawEntry.value_encoding _ _ _ (by simp) (toLe_length 8 value),
      fromLe_toLe]
    have : (256 : Nat) ^ 8 = 2 ^ 64 := by norm_num
    rw [this, Nat.mod_eq_of_lt hval]

/-- C1 witness: the round-trip at a concrete saved entry. -/
theorem raw_entry_roundtrip_witness :
    ∃ e : RawEntry,
      RawEntry.from_slice [0, 0, 0, 0, 32, 32, 32, 32, 7, 0, 0, 0, 0, 0, 0, 0] =
        .ok e ∧ e.json = [] ∧ e.value = 7 :=
  raw_entry_roundtrip (List.replicate 16 0) [] 7
    [0, 0, 0, 0, 32, 32, 32, 32, 7, 0, 0, 0, 0, 0, 0, 0] 8
    (by decide) (by decide)

/-- C8 — `save` error conditions: a key longer than `i32::MAX` is a
`KeyLength` error (and the buffer is returned untouched, not a panic); a
computed total entry length larger than the destination buffer is an
error; with `key.length ≤ i32::MAX` and a sufficiently large buffer the
call succeeds and returns the value offset
`4 + key_len + padding`. -/
theorem raw_entry_save_conditions (buffer key : List Nat) (value : Nat) :
    (key.length > I32_MAX →
       RawEntry.save buffer key value = (buffer, .error .keyLength))
  ∧ (∀ t, RawEntry.calc_total_len key.length = .ok t → t > buffer.length →
       (RawEntry.save buffer key value).2 =
         .error (.other ("entry length " ++ toString t ++
           " larger than slice length " ++ toString buffer.length)))
  ∧ (key.length ≤ I32_MAX →
       4 + key.length + RawEntry.padding_len key.length + 8 ≤
         buffer.length →
       (RawEntry.save buffer key value).2 =
         .ok (4 + key.length + RawEntry.padding_len key.length)) := by
  refine ⟨?_, ?_, ?_⟩
  · intro hgt
    unfold RawEntry.save RawEntry.calc_total_len RawEntry.calc_value_offset
        RawEntry.check_encoded_len
    rw [if_pos hgt]
  · intro t ht hgt
    unfold RawEntry.save
    rw [ht]
    dsimp only
    rw [if_pos hgt]
  · intro hk hfit
    unfold RawEntry.save
    rw [RawEntry.calc_total_len_of_le hk]
    dsimp only
    rw [if_neg (by omega)]
    unfold RawEntry.calc_value_offset RawEntry.check_encoded_len
    rw [if_neg (by omega)]

/-- C8 witness: the three conditions at concrete inputs (an
over-long key cannot be evaluated concretely, so the failure branches are
witnessed by the buffer-too-short case and success by an empty key in a
16-byte buffer). -/
theorem raw_entry_save_conditions_witness :
    (RawEntry.save [0, 0, 0, 0, 0] [] 7).2 =
      .error (.other ("entry length " ++ toString 16 ++
        " larger than slice length " ++ toString 5))
  ∧ (RawEntry.save (List.replicate 16 0) [] 7).2 =
      .ok (4 + 0 + RawEntry.padding_len 0) :=
  ⟨(raw_entry_save_conditions [0, 0, 0, 0, 0] [] 7).2.1 16 (by decide)
      (by decide),
   (raw_entry_save_conditions (List.replicate 16 0) [] 7).2.2 (by decide)
      (by decide)⟩

/-- C9 — Padding arithmetic: `padding_len` always lies in `[1, 8]`,
`4 + encoded_len + padding_len encoded_len` is a multiple of 8, and hence
every total entry length computed by `calc_total_len` (the value offset
plus 8) is a multiple of 8. -/
theorem raw_entry_padding_arith (encoded_len : Nat) :
    1 ≤ RawEntry.padding_len encoded_len
  ∧ RawEntry.padding_len encoded_len ≤ 8
  ∧ (4 + encoded_len + RawEntry.padding_len encoded_len) % 8 = 0
  ∧ (∀ t, RawEntry.calc_total_len encoded_len = .ok t → t % 8 = 0) := by
  have h1 := RawEntry.padding_len_pos encoded_len
  have h2 := RawEntry.padding_len_le encoded_len
  have h3 : (4 + encoded_len + RawEntry.padding_len encoded_len) % 8 = 0 := by
    unfold RawEntry.padding_len at *
    omega
  refine ⟨h1, h2, h3, ?_⟩
  intro t ht
  obtain ⟨-, htt⟩ := RawEntry.calc_total_len_ok ht
  omega

/-- C9 witness: the padding bounds and alignment at `encoded_len = 3`. -/
theorem raw_entry_padding_arith_witness :
    1 ≤ RawEntry.padding_len 3
  ∧ RawEntry.padding_len 3 ≤ 8
  ∧ (4 + 3 + RawEntry.padding_len 3) % 8 = 0
  ∧ 16 % 8 = 0 :=
  ⟨(raw_entry_padding_arith 3).1, (raw_entry_padding_arith 3).2.1,
   (raw_entry_padding_arith 3).2.2.1,
   (raw_entry_padding_arith 3).2.2.2 16 (by decide)⟩

/-- C10 — `save` is atomic on failure: whenever `save(buffer, key, value)`
returns an error (key too long, or total entry length larger than the
buffer), it does so before performing any write, so the destination buffer
is returned byte-for-byte unchanged. -/
theorem raw_entry_save_atomic (buffer key : List Nat) (value : Nat)
    (e : MmapError) (h : (RawEntry.save buffer key value).2 = .error e) :
    (RawEntry.save buffer key value).1 = buffer := by
  unfold RawEntry.save at h ⊢
  rcases ht : RawEntry.calc_total_len key.length with er | t
  · rfl
  rw [ht] at h
  dsimp only at h ⊢
  by_cases hlen : t > buffer.length
  · rw [if_pos hlen]
  rw [if_neg hlen] at h ⊢
  dsimp only at h
  obtain ⟨hk, -⟩ := RawEntry.calc_total_len_ok ht
  rw [show RawEntry.calc_value_offset key.length =
      .ok (4 + key.length + RawEntry.padding_len key.length) by
    unfold RawEntry.calc_value_offset RawEntry.check_encoded_len
    rw [if_neg (by omega)]] at h
  cases h

/-- C10 witness: a failing `save` (buffer of 5 bytes, total length 16)
leaves the buffer unchanged. -/
theorem raw_entry_save_atomic_witness :
    (RawEntry.save [9, 9, 9, 9, 9] [] 7).2 =
      .error (.other ("entry length " ++ toString 16 ++
        " larger than slice length " ++ toString 5))
  ∧ (RawEntry.save [9, 9, 9, 9, 9] [] 7).1 = [9, 9, 9, 9, 9] :=
  ⟨by decide,
   raw_entry_save_atomic [9, 9, 9, 9, 9] [] 7
     (.other ("entry length " ++ toString 16 ++
       " larger than slice length " ++ toString 5)) (by decide)⟩

/-- `FileInfo` (src/file_info.rs): the per-region parameters used by
aggregation.  Ruby `Symbol`s (`multiprocess_mode`, `type_`) are modelled as
their strings; the open file handle and length are host I/O and are not
modelled. -/
structure FileInfo where
  multiprocess_mode : String
  type_ : String
  pid : String
  path : String
  deriving DecidableEq, Repr

/-- `EntryMetadata` (src/file_entry.rs).  The `f64` value is modelled as a
rational: the merge policy selects among exact `min`, `max` and `+`, which
is the level the claims address (IEEE-754 rounding and NaN propagation are
outside the model). -/
structure EntryMetadata where
  multiprocess_mode : String
  type_ : String
  value : ℚ
  deriving DecidableEq, Repr

/-- `EntryMetadata::new`: copy mode and type from the file info and take
the value from the raw entry, interpreting the stored 8-byte pattern
through `f64FromBits` (the abstracted `f64::from_ne_bytes`).  The Rust
constructor returns `Result` but never errs. -/
def EntryMetadata.new (f64FromBits : Nat → ℚ) (mmap_entry : RawEntry)
    (file : FileInfo) : EntryMetadata :=
  ⟨file.multiprocess_mode, file.type_, f64FromBits mmap_entry.value⟩

/-- `EntryMetadata::merge`: combine the value with another entry's value;
for gauges the multiprocess mode selects `min`/`max`/`livesum`(sum)/last
write, every other metric type sums. -/
def EntryMetadata.merge (self other : EntryMetadata) : EntryMetadata :=
  if self.type_ = SYM_GAUGE then
    if self.multiprocess_mode = SYM_MIN then
      { self with value := min self.value other.value }
    else if self.multiprocess_mode = SYM_MAX then
      { self with value := max self.value other.value }
    else if self.multiprocess_mode = SYM_LIVESUM then
      { self with value := self.value + other.value }
    else
      { self with value := other.value }
  else
    { self with value := self.value + other.value }

/-- `EntryMetadata::is_pid_significant`: the pid matters exactly for
gauges whose mode is none of `min`, `max`, `livesum`. -/
def EntryMetadata.is_pid_significant (m : EntryMetadata) : Bool :=
  m.type_ == SYM_GAUGE &&
    !(m.multiprocess_mode == SYM_MIN || m.multiprocess_mode == SYM_MAX ||
      m.multiprocess_mode == SYM_LIVESUM)

/-- `EntryData` (src/file_entry.rs): the owned map key — the JSON string
and the pid when significant. -/
structure EntryData where
  json : String
  pid : Option String
  deriving DecidableEq, Repr

/-- `BorrowedData` (src/file_entry.rs): the borrowed view of a map key
used to probe the map without allocating. -/
structure BorrowedData where
  json : String
  pid : Option String
  deriving DecidableEq, Repr

/-- `BorrowedData::new`: decode the raw entry's key bytes as UTF-8 (the
standard library's `str::from_utf8` is abstracted as the `utf8` parameter;
its error detail string is not modelled) and attach the file's pid exactly
when `pid_significant` holds. -/
def BorrowedData.new (utf8 : List Nat → Option String) (raw_entry : RawEntry)
    (file_info : FileInfo) (pid_significant : Bool) :
    Except MmapError BorrowedData :=
  match utf8 raw_entry.json with
  | none => .error (.encoding "invalid UTF-8 in entry JSON")
  | some json =>
    .ok ⟨json, if pid_significant then some file_info.pid else none⟩

theorem is_pid_significant_iff (m : EntryMetadata) :
    m.is_pid_significant = true ↔
      (m.type_ = SYM_GAUGE ∧ m.multiprocess_mode ≠ SYM_MIN ∧
       m.multiprocess_mode ≠ SYM_MAX ∧ m.multiprocess_mode ≠ SYM_LIVESUM) := by
  unfold EntryMetadata.is_pid_significant
  simp [not_or, and_assoc]

/-- C2 — Merge policy: for an existing value `a` and incoming value `b`
with the same mode and type, merging yields `min a b` for gauge/min,
`max a b` for gauge/max, `a + b` for gauge/livesum, `b` (last write wins)
for a gauge in any other mode, and `a + b` for every non-gauge metric
type. -/
theorem entry_metadata_merge_policy (mode ty : String) (a b : ℚ) :
    (EntryMetadata.merge ⟨SYM_MIN, SYM_GAUGE, a⟩ ⟨SYM_MIN, SYM_GAUGE, b⟩).value =
      min a b
  ∧ (EntryMetadata.merge ⟨SYM_MAX, SYM_GAUGE, a⟩ ⟨SYM_MAX, SYM_GAUGE, b⟩).value =
      max a b
  ∧ (EntryMetadata.merge ⟨SYM_LIVESUM, SYM_GAUGE, a⟩
       ⟨SYM_LIVESUM, SYM_GAUGE, b⟩).value = a + b
  ∧ (mode ≠ SYM_MIN → mode ≠ SYM_MAX → mode ≠ SYM_LIVESUM →
       (EntryMetadata.merge ⟨mode, SYM_GAUGE, a⟩ ⟨mode, SYM_GAUGE, b⟩).value = b)
  ∧ (ty ≠ SYM_GAUGE →
       (EntryMetadata.merge ⟨mode, ty, a⟩ ⟨mode, ty, b⟩).value = a + b) := by
  refine ⟨?_, ?_, ?_, ?_, ?_⟩
  · simp [EntryMetadata.merge, SYM_MIN, SYM_MAX, SYM_GAUGE, SYM_LIVESUM]
  · simp [EntryMetadata.merge, SYM_MIN, SYM_MAX, SYM_GAUGE, SYM_LIVESUM]
  · simp [EntryMetadata.merge, SYM_MIN, SYM_MAX, SYM_GAUGE, SYM_LIVESUM]
  · intro h1 h2 h3
    unfold EntryMetadata.merge
    rw [if_pos rfl, if_neg h1, if_neg h2, if_neg h3]
  · intro hty
    unfold EntryMetadata.merge
    rw [if_neg hty]

/-- C2 witness: the merge policy at the spec's scenario values `1.0` and
`5.0` (gauge min/max/livesum, gauge "all" last-write-wins, non-gauge
sum). -/
theorem entry_metadata_merge_policy_witness :
    (EntryMetadata.merge ⟨SYM_MIN, SYM_GAUGE, 1⟩ ⟨SYM_MIN, SYM_GAUGE, 5⟩).value =
      min 1 5
  ∧ (EntryMetadata.merge ⟨SYM_MAX, SYM_GAUGE, 1⟩ ⟨SYM_MAX, SYM_GAUGE, 5⟩).value =
      max 1 5
  ∧ (EntryMetadata.merge ⟨SYM_LIVESUM, SYM_GAUGE, 1⟩
       ⟨SYM_LIVESUM, SYM_GAUGE, 5⟩).value = 1 + 5
  ∧ (EntryMetadata.merge ⟨"all", SYM_GAUGE, 1⟩ ⟨"all", SYM_GAUGE, 5⟩).value = 5
  ∧ (EntryMetadata.merge ⟨"all", "histogram", 1⟩
       ⟨"all", "histogram", 5⟩).value = 1 + 5 :=
  ⟨(entry_metadata_merge_policy "all" "histogram" 1 5).1,
   (entry_metadata_merge_policy "all" "histogram" 1 5).2.1,
   (entry_metadata_merge_policy "all" "histogram" 1 5).2.2.1,
   (entry_metadata_merge_policy "all" "histogram" 1 5).2.2.2.1
     (by decide) (by decide) (by decide),
   (entry_metadata_merge_policy "all" "histogram" 1 5).2.2.2.2 (by decide)⟩

/-- C6 — Pid significance: `is_pid_significant` holds exactly when the
metric type is gauge and the mode is none of `min`, `max`, `livesum`; and
the pid is part of the dedup key built by `BorrowedData::new` (fed from
`is_pid_significant`, as in `EntryMap::process_buffer`) exactly under the
same condition. -/
theorem pid_significance (utf8 : List Nat → Option String) (raw : RawEntry)
    (fi : FileInfo) (meta : EntryMetadata) (bd : BorrowedData)
    (h : BorrowedData.new utf8 raw fi meta.is_pid_significant = .ok bd) :
    (meta.is_pid_significant = true ↔
      (meta.type_ = SYM_GAUGE ∧ meta.multiprocess_mode ≠ SYM_MIN ∧
       meta.multiprocess_mode ≠ SYM_MAX ∧ meta.multiprocess_mode ≠ SYM_LIVESUM))
  ∧ (bd.pid.isSome = true ↔
      (meta.type_ = SYM_GAUGE ∧ meta.multiprocess_mode ≠ SYM_MIN ∧
       meta.multiprocess_mode ≠ SYM_MAX ∧
       meta.multiprocess_mode ≠ SYM_LIVESUM)) := by
  refine ⟨is_pid_significant_iff meta, ?_⟩
  unfold BorrowedData.new at h
  rcases hu : utf8 raw.json with _ | j
  · rw [hu] at h; cases h
  rw [hu] at h
  dsimp only at h
  injection h with h
  subst h
  rw [← is_pid_significant_iff meta]
  by_cases hp : meta.is_pid_significant = true
  · simp [hp]
  · simp [hp]

/-- C6 witness: a gauge in "all" mode carries its pid in the dedup key. -/
theorem pid_significance_witness :
    ((⟨"all", "gauge", 1⟩ : EntryMetadata).is_pid_significant = true ↔
      ((⟨"all", "gauge", 1⟩ : EntryMetadata).type_ = SYM_GAUGE ∧
       (⟨"all", "gauge", 1⟩ : EntryMetadata).multiprocess_mode ≠ SYM_MIN ∧
       (⟨"all", "gauge", 1⟩ : EntryMetadata).multiprocess_mode ≠ SYM_MAX ∧
       (⟨"all", "gauge", 1⟩ : EntryMetadata).multiprocess_mode ≠ SYM_LIVESUM))
  ∧ ((⟨"k", some "worker-1"⟩ : BorrowedData).pid.isSome = true ↔
      ((⟨"all", "gauge", 1⟩ : EntryMetadata).type_ = SYM_GAUGE ∧
       (⟨"all", "gauge", 1⟩ : EntryMetadata).multiprocess_mode ≠ SYM_MIN ∧
       (⟨"all", "gauge", 1⟩ : EntryMetadata).multiprocess_mode ≠ SYM_MAX ∧
       (⟨"all", "gauge", 1⟩ : EntryMetadata).multiprocess_mode ≠ SYM_LIVESUM)) :=
  pid_significance (fun _ => some "k") ⟨[], 0⟩ ⟨"all", "gauge", "worker-1", "p"⟩
    ⟨"all", "gauge", 1⟩ ⟨"k", some "worker-1"⟩ (by decide)

/-- `MetricText` (src/file_entry.rs): the decoded fields of an entry's
JSON key.  Label values are `&RawValue`s in Rust, i.e. raw JSON tokens;
they are modelled as the strings `RawValue::get` returns. -/
structure MetricText where
  family_name : String
  metric_name : String
  labels : List String
  values : List String
  deriving DecidableEq, Repr

/-- `FileEntry` (src/file_entry.rs): a map key plus its metadata. -/
structure FileEntry where
  data : EntryData
  meta : EntryMetadata
  deriving DecidableEq, Repr

/-- `FileEntry::append_header`: the two-line `# HELP` / `# TYPE` family
header (`Symbol::name` of the type is its string). -/
def FileEntry.append_header (self : FileEntry) (family_name : String)
    (out : String) : String :=
  out ++ "# HELP " ++ family_name ++ " Multiprocess metric\n" ++
    "# TYPE " ++ family_name ++ " " ++ self.meta.type_ ++ "\n"

/-- One label value as rendered by `FileEntry::append_entry`: JSON `null`
becomes an empty quoted string, an already-quoted JSON string is emitted
as is, anything else (numeric tokens) is wrapped in quotes. -/
def renderLabelValue (val : String) : String :=
  if val = "null" then "\"\""
  else if val.startsWith "\"" then val
  else "\"" ++ val ++ "\""

/-- The label loop of `FileEntry::append_entry`: emit `key=value` pairs,
inserting a comma after every pair whose index is below `total - 1`. -/
def FileEntry.append_labels :
    List (String × String) → Nat → Nat → String → String
  | [], _, _, out => out
  | (key, val) :: rest, total, i, out =>
    FileEntry.append_labels rest total (i + 1)
      (out ++ key ++ "=" ++ renderLabelValue val ++
        if i < total - 1 then "," else "")

/-- `FileEntry::append_entry`: the metric name, then the label block; a
record with no labels gets a singleton `pid` label exactly when its pid is
significant, and a labelled record gets the pid appended as the final
label. -/
def FileEntry.append_entry (self : FileEntry) (json_data : MetricText)
    (out : String) : String :=
  let out := out ++ json_data.metric_name
  if json_data.labels.isEmpty then
    match self.data.pid with
    | some pid => out ++ "\x7bpid=\"" ++ pid ++ "\"\x7d"
    | none => out
  else
    let out := out ++ "\x7b"
    let out := FileEntry.append_labels
      (json_data.labels.zip json_data.values) json_data.labels.length 0 out
    let out :=
      match self.data.pid with
      | some pid => out ++ ",pid=\"" ++ pid ++ "\""
      | none => out
    out ++ "\x7d"

/-- The per-entry loop of `FileEntry::entries_to_string`, carrying the
previous family name, the output accumulator and the processed count.
`serde_json::from_str::<MetricText>` is abstracted as the `parse`
parameter, and the `Display` formatting of the `f64` value as `fmt`. -/
def FileEntry.entries_loop (parse : String → Option MetricText)
    (fmt : ℚ → String) :
    List FileEntry → Option String → String → Nat → String × Nat
  | [], _, out, processed => (out, processed)
  | entry :: rest, prev_name, out, processed =>
    match parse entry.data.json with
    | none => FileEntry.entries_loop parse fmt rest prev_name out processed
    | some m =>
      if m.labels.length ≠ m.values.length then
        FileEntry.entries_loop parse fmt rest prev_name out processed
      else
        let step :=
          match prev_name with
          | some p =>
            if p = m.family_name then (prev_name, out)
            else (some m.family_name, entry.append_header m.family_name out)
          | none =>
            (some m.family_name, entry.append_header m.family_name out)
        let out2 := entry.append_entry m step.2
        let out3 := out2 ++ " " ++ fmt entry.meta.value ++ "\n"
        FileEntry.entries_loop parse fmt rest step.1 out3 (processed + 1)

/-- `FileEntry::entries_to_string`: run the loop over all entries, then
fail with the aggregation-corruption error whenever the processed count
differs from the input count (the `try_reserve` allocation check cannot
fail in the model). -/
def FileEntry.entries_to_string (parse : String → Option MetricText)
    (fmt : ℚ → String) (entries : List FileEntry) : Except MmapError String :=
  let r := FileEntry.entries_loop parse fmt entries none "" 0
  if r.2 ≠ entries.length then
    .error (.legacy ("Processed entries " ++ toString r.2 ++
      " != map entries " ++ toString entries.length) .runtime)
  else
    .ok r.1

/-- An entry the exposition loop emits: its key parses and the decoded
label and value counts agree. -/
def validEntry (parse : String → Option MetricText) (e : FileEntry) : Bool :=
  match parse e.data.json with
  | some m => m.labels.length == m.values.length
  | none => false

theorem entries_loop_count (parse : String → Option MetricText)
    (fmt : ℚ → String) (entries : List FileEntry) (prev : Option String)
    (out : String) (processed : Nat) :
    (FileEntry.entries_loop parse fmt entries prev out processed).2 =
      processed + entries.countP (validEntry parse) := by
  induction entries generalizing prev out processed with
  | nil => simp [FileEntry.entries_loop]
  | cons e rest ih =>
    unfold FileEntry.entries_loop
    rcases hp : parse e.data.json with _ | m
    · dsimp only
      rw [ih]
      simp [List.countP_cons, validEntry, hp]
    · dsimp only
      by_cases hl : m.labels.length ≠ m.values.length
      · rw [if_pos hl, ih]
        have hv : validEntry parse e = false := by
          simp [validEntry, hp]
          omega
        simp [List.countP_cons, hv]
      · rw [if_neg hl, ih]
        have hv : validEntry parse e = true := by
          simp [validEntry, hp]
          omega
        simp [List.countP_cons, hv]
        omega

/-- C3 — Text exposition is all-or-nothing: the loop skips exactly the
records whose key fails to parse or whose decoded label count differs from
the value count; `entries_to_string` succeeds when every record was
emitted and returns the aggregation-corruption error (carrying the
processed and total counts) instead of any partial output exactly when the
number of emitted records differs from the number of input records. -/
theorem entries_to_string_all_or_nothing (parse : String → Option MetricText)
    (fmt : ℚ → String) (entries : List FileEntry) :
    (entries.countP (validEntry parse) = entries.length →
       ∃ out, FileEntry.entries_to_string parse fmt entries = .ok out)
  ∧ (entries.countP (validEntry parse) ≠ entries.length →
       FileEntry.entries_to_string parse fmt entries =
         .error (.legacy ("Processed entries " ++
             toString (entries.countP (validEntry parse)) ++
             " != map entries " ++ toString entries.length) .runtime)) := by
  have hc := entries_loop_count parse fmt entries none "" 0
  rw [Nat.zero_add] at hc
  constructor
  · intro h
    unfold FileEntry.entries_to_string
    dsimp only
    rw [hc, if_neg (by omega)]
    exact ⟨_, rfl⟩
  · intro h
    unfold FileEntry.entries_to_string
    dsimp only
    rw [hc, if_pos h]

/-- C3 witness: a single unparsable record is skipped and the aggregate
corruption error is returned with counts 0 and 1. -/
theorem entries_to_string_all_or_nothing_witness :
    FileEntry.entries_to_string (fun _ => none) (fun _ => "")
        [⟨⟨"x", none⟩, ⟨"min", "gauge", 1⟩⟩] =
      .error (.legacy ("Processed entries " ++ toString 0 ++
        " != map entries " ++ toString 1) .runtime) :=
  (entries_to_string_all_or_nothing (fun _ => none) (fun _ => "")
    [⟨⟨"x", none⟩, ⟨"min", "gauge", 1⟩⟩]).2 (by decide)

/-- The `EntryMap` of src/map.rs, modelled as an association list from
`EntryData` keys to `EntryMetadata`; hashing is an implementation detail
of lookup and is not modelled. -/
def EntryMap := List (EntryData × EntryMetadata)

/-- `EntryMap::merge_or_store`: probe the map with the borrowed key; on a
hit merge the metadata into the existing entry, on a miss insert an owned
copy of the key (the `try_reserve` allocation failure cannot occur in the
model, so the Rust `Result` is always `Ok`). -/
def EntryMap.merge_or_store : EntryMap → EntryData → EntryMetadata → EntryMap
  | [], data, meta => [(data, meta)]
  | (k, v) :: rest, data, meta =>
    if k = data then (k, v.merge meta) :: rest
    else (k, v) :: EntryMap.merge_or_store rest data meta

/-- The record-scanning loop of `EntryMap::process_buffer` for
non-exemplar files: while `pos + 4 < used`, decode one entry from
`source[pos..used]`, validate its total length against `used`, build its
metadata and borrowed key, and merge-or-store it.  The first component of
the result is the error that stopped the loop (if any), the second the map
state at that moment — so an early error leaves every already-merged
record in place and nothing else, mirroring the in-place mutation of
`&mut self`.

The Rust loop has a second branch for `file_info.type_ == "exemplar"`
calling `RawEntry::from_slice_exemplar`; that function does not exist in
`src/raw_entry.rs`, so the exemplar path is not modelled (the claims
settled here are decided by checks performed before the loop starts). -/
def EntryMap.process_loop (f64FromBits : Nat → ℚ)
    (utf8 : List Nat → Option String) (fi : FileInfo) (source : List Nat)
    (used pos : Nat) (m : EntryMap) : Option MmapError × EntryMap :=
  if _h : pos + 4 < used then
    match RawEntry.from_slice ((source.take used).drop pos) with
    | .error e => (some e, m)
    | .ok raw =>
      if pos + raw.total_len > used then
        (some (.promParsing ("source file " ++ fi.path ++
          " corrupted, used " ++ toString used ++
          " < stored data length " ++ toString (pos + raw.total_len))), m)
      else
        let meta := EntryMetadata.new f64FromBits raw fi
        match BorrowedData.new utf8 raw fi meta.is_pid_significant with
        | .error e => (some e, m)
        | .ok data =>
          EntryMap.process_loop f64FromBits utf8 fi source used
            (pos + raw.total_len)
            (EntryMap.merge_or_store m ⟨data.json, data.pid⟩ meta)
  else
    (none, m)
termination_by used - pos
decreasing_by
  simp only [RawEntry.total_len]
  omega

/-- `EntryMap::process_buffer`: a source shorter than the header is
treated as empty (`Ok`); otherwise the stored `used` header is read and a
value larger than the physical source length is a fatal `PromParsing`
error raised before the scanning loop runs. -/
def EntryMap.process_buffer (f64FromBits : Nat → ℚ)
    (utf8 : List Nat → Option String) (m : EntryMap) (fi : FileInfo)
    (source : List Nat) : Option MmapError × EntryMap :=
  if source.length < HEADER_SIZE then (none, m)
  else
    match read_u32 source 0 with
    | .error e => (some e, m)
    | .ok used =>
      if used > source.length then
        (some (.promParsing ("source file " ++ fi.path ++
          " corrupted, used " ++ toString used ++ " > file size " ++
          toString source.length)), m)
      else
        EntryMap.process_loop f64FromBits utf8 fi source used HEADER_SIZE m

/-- C4 counterexample: a 4-byte region stores `used = 255`, greater than
the physical region length 4, yet `process_buffer` returns `Ok` with no
error — regions shorter than `HEADER_SIZE` are treated as empty before
the corrupted-`used` check, so the claim fails as universally stated. -/
theorem process_buffer_short_region_counterexample :
    read_u32 [255, 0, 0, 0] 0 = .ok 255
  ∧ 255 > List.length [255, 0, 0, 0]
  ∧ EntryMap.process_buffer (fun _ => 0) (fun _ => none) []
      ⟨"max", "gauge", "worker-1", "p"⟩ [255, 0, 0, 0] = (none, []) := by
  refine ⟨by decide, by decide, ?_⟩
  unfold EntryMap.process_buffer
  rw [if_pos (by decide)]

/-- C4 (amended) — Corrupted header is fatal and atomic: for every source
region of length at least `HEADER_SIZE` whose stored `used` header is
greater than the physical region length, `process_buffer` fails with the
`PromParsing` corruption error before any record is merged, returning the
aggregate map unchanged. -/
theorem process_buffer_corrupt_used (f64FromBits : Nat → ℚ)
    (utf8 : List Nat → Option String) (m : EntryMap) (fi : FileInfo)
    (source : List Nat) (used : Nat)
    (hlen : HEADER_SIZE ≤ source.length)
    (hread : read_u32 source 0 = .ok used)
    (hused : used > source.length) :
    EntryMap.process_buffer f64FromBits utf8 m fi source =
      (some (.promParsing ("source file " ++ fi.path ++
        " corrupted, used " ++ toString used ++ " > file size " ++
        toString source.length)), m) := by
  unfold EntryMap.process_buffer
  rw [if_neg (by omega), hread]
  dsimp only
  rw [if_pos hused]

/-- C4 witness: an 8-byte region whose header claims 99 used bytes. -/
theorem process_buffer_corrupt_used_witness :
    EntryMap.process_buffer (fun _ => 0) (fun _ => none) []
        ⟨"max", "gauge", "worker-1", "p"⟩ [99, 0, 0, 0, 0, 0, 0, 0] =
      (some (.promParsing ("source file " ++ "p" ++
        " corrupted, used " ++ toString 99 ++ " > file size " ++
        toString 8)), []) :=
  process_buffer_corrupt_used (fun _ => 0) (fun _ => none) []
    ⟨"max", "gauge", "worker-1", "p"⟩ [99, 0, 0, 0, 0, 0, 0, 0] 99
    (by decide) (by decide) (by decide)

/-- `InnerMmap` (src/mmap/inner.rs): the mapped bytes (`map`, whose length
is `capacity()`) and the written data length `len`.  The file handle and
path are host I/O and not modelled. -/
structure InnerMmap where
  map : List Nat
  len : Nat
  deriving DecidableEq, Repr

/-- `InnerMmap::capacity`: the length of the mapping. -/
def InnerMmap.capacity (m : InnerMmap) : Nat := m.map.length

/-- `InnerMmap::item_range`: checked `start..start + len`, rejecting
ranges whose end reaches the capacity. -/
def InnerMmap.item_range (m : InnerMmap) (start len : Nat) :
    Except MmapError (Nat × Nat) :=
  match add_chk start len with
  | .error e => .error e
  | .ok offset_end =>
    if offset_end ≥ m.capacity then
      .error (.outOfBounds offset_end m.capacity)
    else
      .ok (start, offset_end)

/-- `InnerMmap::save_value`: reject offsets at or beyond `len + 8` (the
out-of-bounds error reports `offset + 8` against `len`), then offsets
inside the header region, then validate the 8-byte range against the
capacity and write the value's bytes in place. -/
def InnerMmap.save_value (m : InnerMmap) (offset : Nat) (value : Nat) :
    Except MmapError InnerMmap :=
  match add_chk m.len 8 with
  | .error e => .error e
  | .ok l8 =>
    if l8 ≤ offset then
      .error (.outOfBounds (offset + 8) m.len)
    else if offset < HEADER_SIZE then
      .error (.other ("writing to offset " ++ toString offset ++
        " would overwrite file header"))
    else
      match m.item_range offset 8 with
      | .error e => .error e
      | .ok _ =>
        .ok { m with
          map := m.map.take offset ++ toLe 8 value ++ m.map.drop (offset + 8) }

/-- `InnerMmap::load_value`: reject offsets at or beyond `len + 8`, then
read the 8-byte value (returned as its 64-bit pattern) with `read_f64`'s
own capacity check.  There is no header-region check. -/
def InnerMmap.load_value (m : InnerMmap) (offset : Nat) :
    Except MmapError Nat :=
  match add_chk m.len 8 with
  | .error e => .error e
  | .ok l8 =>
    if l8 ≤ offset then
      .error (.outOfBounds (offset + 8) m.len)
    else
      read_f64_bits m.map offset

/-- C5 counterexample: on a region of capacity 32 with `len = used = 8`,
`load_value 0` reads the header region successfully (no
`offset < HEADER_SIZE` check exists in `load_value`), and both
`load_value 9` and `save_value 9` succeed although offset 9 lies beyond
the written length 8 — so neither half of the claim holds for `load_value`
and the beyond-`used` rejection holds for neither function as stated. -/
theorem inner_mmap_bounds_counterexample :
    InnerMmap.load_value ⟨List.replicate 32 0, 8⟩ 0 = .ok 0
  ∧ InnerMmap.load_value ⟨List.replicate 32 0, 8⟩ 9 = .ok 0
  ∧ InnerMmap.save_value ⟨List.replicate 32 0, 8⟩ 9 0 =
      .ok ⟨List.replicate 32 0, 8⟩ := by
  refine ⟨by decide, by decide, ?_⟩
  have h : (⟨List.replicate 32 0, 8⟩ : InnerMmap).map.take 9 ++ toLe 8 0 ++
      (⟨List.replicate 32 0, 8⟩ : InnerMmap).map.drop (9 + 8) =
      List.replicate 32 0 := by decide
  unfold InnerMmap.save_value
  rw [show add_chk 8 8 = .ok 16 from by decide]
  dsimp only
  rw [if_neg (by decide), if_neg (by decide),
    show InnerMmap.item_range ⟨List.replicate 32 0, 8⟩ 9 8 = .ok (9, 17)
      from by decide]
  dsimp only
  rw [h]

/-- C5 (amended) — Bounds checks: `save_value` rejects offsets inside the
header region (`offset < HEADER_SIZE`); both `save_value` and
`load_value` reject offsets at or beyond `len + 8` (where `len` is the
written data length) with an out-of-bounds error; `load_value` performs no
header-region check, and offsets strictly between `len` and `len + 8` are
not rejected by the length check, only by the capacity bound. -/
theorem inner_mmap_bounds_checks (m : InnerMmap) (offset value : Nat)
    (hlen : m.len + 8 ≤ USIZE_MAX) :
    (offset < HEADER_SIZE →
       m.save_value offset value =
         .error (.other ("writing to offset " ++ toString offset ++
           " would overwrite file header")))
  ∧ (m.len + 8 ≤ offset →
       m.save_value offset value = .error (.outOfBounds (offset + 8) m.len)
     ∧ m.load_value offset = .error (.outOfBounds (offset + 8) m.len)) := by
  have hadd : add_chk m.len 8 = .ok (m.len + 8) := by
    unfold add_chk
    rw [if_pos hlen]
  constructor
  · intro hh
    unfold InnerMmap.save_value
    rw [hadd]
    dsimp only
    rw [if_neg (by unfold HEADER_SIZE at hh; omega), if_pos hh]
  · intro hoff
    unfold InnerMmap.save_value InnerMmap.load_value
    rw [hadd]
    dsimp only
    rw [if_pos hoff, if_pos hoff]
    exact ⟨rfl, rfl⟩

/-- C5 witness: the header-region rejection of `save_value` at offset 3,
and the beyond-length rejection of both functions at offset 16, on a
region of capacity 32 with written length 8. -/
theorem inner_mmap_bounds_checks_witness :
    (InnerMmap.save_value ⟨List.replicate 32 0, 8⟩ 3 0 =
      .error (.other ("writing to offset " ++ toString 3 ++
        " would overwrite file header")))
  ∧ (InnerMmap.save_value ⟨List.replicate 32 0, 8⟩ 16 0 =
      .error (.outOfBounds (16 + 8) 8)
     ∧ InnerMmap.load_value ⟨List.replicate 32 0, 8⟩ 16 =
      .error (.outOfBounds (16 + 8) 8)) :=
  ⟨(inner_mmap_bounds_checks ⟨List.replicate 32 0, 8⟩ 3 0 (by decide)).1
      (by decide),
   (inner_mmap_bounds_checks ⟨List.replicate 32 0, 8⟩ 16 0 (by decide)).2
      (by decide)⟩

/-- The capacity-doubling loop of `MmapedFile::expand_to_fit`:
`while new_cap < target_cap { new_cap = new_cap.mul_chk(2)? }`.  The loop
does not terminate in Rust when `cap = 0` and `0 < target`; a capacity is
always at least `HEADER_SIZE` in the program, and the `0 < cap`
precondition records that. -/
def doubleCap (cap target : Nat) (hcap : 0 < cap) : Except MmapError Nat :=
  if h : cap < target then
    if hov : cap * 2 ≤ USIZE_MAX then
      doubleCap (cap * 2) target (by omega)
    else
      .error (.overflow cap 2 "multiplying")
  else
    .ok cap
termination_by target - cap
decreasing_by omega

/-- `MmapedFile::expand_to_fit` (src/mmap.rs): a target below the current
capacity is an argument error ("Can't reduce the size of mmap"); otherwise
the doubling loop runs and, when it moved (`new_cap ≠ cap`), the old map
is dropped, the file extended and the map re-established with
`map_len = target_cap` — so the new capacity is `target_cap`
(`InnerMmap::reestablish` sets both `capacity` and `len` to `map_len`).
The result is the new capacity together with whether a remap happened;
host I/O failures of `lseek`/`write` during `expand_file` are not
modelled, and its `len == 0` overflow check is unreachable here because
`target ≥ cap > 0`. -/
def expand_to_fit (cap target : Nat) (hcap : 0 < cap) :
    Except MmapError (Nat × Bool) :=
  if target < cap then
    .error (.legacy "Can't reduce the size of mmap" .arg)
  else
    match doubleCap cap target hcap with
    | .error e => .error e
    | .ok new_cap =>
      if new_cap ≠ cap then
        .ok (target, true)
      else
        .ok (cap, false)

theorem doubleCap_bounds_aux (d : Nat) : ∀ (cap target : Nat)
    (hcap : 0 < cap) (n : Nat), target - cap ≤ d →
    doubleCap cap target hcap = .ok n → cap ≤ n ∧ target ≤ n := by
  induction d with
  | zero =>
    intro cap target hcap n hle h
    rw [doubleCap, dif_neg (by omega)] at h
    injection h with h
    omega
  | succ d ih =>
    intro cap target hcap n hle h
    rw [doubleCap] at h
    by_cases h1 : cap < target
    · rw [dif_pos h1] at h
      by_cases h2 : cap * 2 ≤ USIZE_MAX
      · rw [dif_pos h2] at h
        have := ih (cap * 2) target (by omega) n (by omega) h
        omega
      · rw [dif_neg h2] at h
        cases h
    · rw [dif_neg h1] at h
      injection h with h
      omega

theorem doubleCap_bounds {cap target : Nat} {hcap : 0 < cap} {n : Nat}
    (h : doubleCap cap target hcap = .ok n) : cap ≤ n ∧ target ≤ n :=
  doubleCap_bounds_aux (target - cap) cap target hcap n (le_refl _) h

/-- C7 — Growth idempotence: once `expand_to_fit x` has succeeded, leaving
the region at capacity `cap'` (which is at least `x`), every repeated
`expand_to_fit x` call succeeds and performs no remap. -/
theorem expand_to_fit_idempotent (cap x : Nat) (hcap : 0 < cap)
    (cap' : Nat) (remapped : Bool) (hcap' : 0 < cap')
    (h : expand_to_fit cap x hcap = .ok (cap', remapped)) :
    x ≤ cap' ∧ expand_to_fit cap' x hcap' = .ok (cap', false) := by
  unfold expand_to_fit at h
  by_cases hlt : x < cap
  · rw [if_pos hlt] at h
    cases h
  rw [if_neg hlt] at h
  rcases hd : doubleCap cap x hcap with e | new_cap
  · rw [hd] at h; cases h
  rw [hd] at h
  dsimp only at h
  by_cases hne : new_cap ≠ cap
  · rw [if_pos hne] at h
    injection h with h
    obtain ⟨h1, -⟩ := Prod.mk.injEq .. ▸ h
    subst h1
    refine ⟨le_refl x, ?_⟩
    unfold expand_to_fit
    rw [if_neg (by omega)]
    rw [show doubleCap x x hcap' = .ok x from by
      unfold doubleCap
      rw [dif_neg (by omega)]]
    dsimp only
    rw [if_neg (by omega)]
  · rw [if_neg hne] at h
    injection h with h
    obtain ⟨h1, -⟩ := Prod.mk.injEq .. ▸ h
    subst h1
    push_neg at hne
    rw [hne] at hd
    have hxcap : x ≤ cap := (doubleCap_bounds hd).2
    refine ⟨hxcap, ?_⟩
    unfold expand_to_fit
    rw [if_neg (by omega)]
    rw [show doubleCap cap x hcap' = .ok cap from by
      unfold doubleCap
      rw [dif_neg (by omega)]]
    dsimp only
    rw [if_neg (by omega)]

/-- C7 witness: growing a capacity-8 region to fit 32 remaps it to
capacity 32; the repeated call succeeds without remapping. -/
theorem expand_to_fit_idempotent_witness :
    32 ≤ 32 ∧ expand_to_fit 32 32 (by omega) = .ok (32, false) :=
  expand_to_fit_idempotent 8 32 (by omega) 32 true (by omega)
    (by simp [expand_to_fit, doubleCap, USIZE_MAX])
